import Mathlib

/-!
Shallow embedding of the per-second position-ledger pass of
`binance_fetcher.py` (function `main`, steps 4 and 5) and of the strategy
evaluator of `analyze_strategy.py` (function `analyze_event`).

Conventions of the embedding:
* Python floats are modelled as exact rationals (`ℚ`).
* Python blank-string sentinels ("" cells) are modelled as `none`; a cell
  holding a number (including the number 0) is `some q`.
* Python truthiness of a numeric value is the test `q ≠ 0`; truthiness of a
  possibly-blank cell is `some q` with `q ≠ 0`.
* `round(x, n)` is modelled as decimal rounding half-to-even (`roundTo`).
* A trade record's `t.get("size", 0)` / `t.get("price", 0)` coercions are
  collapsed into rational fields `size` / `price` (an absent key is 0);
  `t.get("timestamp")` is kept as `Option Int` because the grouping loop
  tests its truthiness.
-/

/-- Floor of a rational, written directly on the numerator and denominator
(`Int.fdiv` is floor division, and the denominator is positive). -/
def ifloor (q : ℚ) : Int := q.num.fdiv q.den

/-- Round to the nearest integer, ties to even, as Python's `round`. -/
def rnd (q : ℚ) : Int :=
  if q - ifloor q < 1/2 then ifloor q
  else if 1/2 < q - ifloor q then ifloor q + 1
  else if ifloor q % 2 = 0 then ifloor q else ifloor q + 1

/-- Python's `round(q, n)`: round to `n` decimal places. -/
def roundTo (n : ℕ) (q : ℚ) : ℚ := (rnd (q * 10 ^ n) : ℚ) / 10 ^ n

/-- A Polymarket trade record, after the numeric coercions the source
applies (`float(t.get("size", 0))`, `float(t.get("price", 0))`). -/
structure Trade where
  timestamp : Option Int
  side : String
  outcome : String
  size : ℚ
  price : ℚ
deriving DecidableEq

/-- `t.get("side") == "BUY" and t.get("outcome") == "Up"` (binance_fetcher.py
lines 159-166). -/
def isBuyUp (t : Trade) : Bool := t.side == "BUY" && t.outcome == "Up"

/-- `t.get("side") == "BUY" and t.get("outcome") == "Down"`. -/
def isBuyDown (t : Trade) : Bool := t.side == "BUY" && t.outcome == "Down"

/-- Whether the grouping loop of step 4 files trade `t` under second `s`:
`ts = t.get("timestamp"); if ts: trades_by_ts[int(ts)].append(t)` — the
timestamp must be truthy (present and nonzero) and equal to `s`. -/
def tsKeep (s : Int) (t : Trade) : Bool :=
  match t.timestamp with
  | some v => decide (v ≠ 0 ∧ v = s)
  | none => false

/-- Step 4 of `main`: `trades_by_ts` groups trades by integer second,
dropping every trade whose timestamp is falsy (`if ts:`), i.e. absent or 0.
The group of second `s` keeps the original order, as `defaultdict(list)`
with `append` does. -/
def tradesByTs (trades : List Trade) (s : Int) : List Trade :=
  trades.filter (tsKeep s)

/-- The loop-carried state of step 5 of `main`: `base_price`,
`cum_up_size`, `cum_up_cost`, `cum_down_size`, `cum_down_cost`. -/
structure BuildState where
  base_price : Option ℚ
  cum_up_cost : ℚ
  cum_up_size : ℚ
  cum_down_cost : ℚ
  cum_down_size : ℚ
deriving DecidableEq

/-- Initial state before the walk (lines 136-140). -/
def initState : BuildState := ⟨none, 0, 0, 0, 0⟩

/-- `buy_up_size = sum(float(t.get("size", 0)) ...)` for a partition. -/
def fillSize (l : List Trade) : ℚ := (l.map (fun t => t.size)).sum

/-- `avg_price = sum(prices) / len(prices)`: the unweighted arithmetic mean
of the partition's trade prices (lines 172, 177). -/
def fillAvg (l : List Trade) : ℚ := (l.map (fun t => t.price)).sum / (l.length : ℚ)

/-- Lines 171-179: if the partition's total size is positive, add
`fill_size * avg_price` to the cumulative cost and `fill_size` to the
cumulative size; otherwise leave both unchanged. -/
def updSide (cost size : ℚ) (l : List Trade) : ℚ × ℚ :=
  if 0 < fillSize l then (cost + fillSize l * fillAvg l, size + fillSize l)
  else (cost, size)

/-- Lines 150-151: `if base_price is None and btc_close: base_price = btc_close`
(a close of 0.0 is falsy and does not set the anchor). -/
def anchorAfter (base close : Option ℚ) : Option ℚ :=
  if base = none ∧ (∃ c, close = some c ∧ c ≠ 0) then close else base

/-- Lines 154-156: `btc_delta = round(btc_close - base_price, 2)` if both
`base_price` and `btc_close` are truthy, else blank. -/
def deltaField (base close : Option ℚ) : Option ℚ :=
  match base, close with
  | some b, some c => if b ≠ 0 ∧ c ≠ 0 then some (roundTo 2 (c - b)) else none
  | _, _ => none

/-- The state after processing one second's trades (lines 150-179). -/
def nextState (st : BuildState) (close : Option ℚ) (tts : List Trade) : BuildState :=
  { base_price := anchorAfter st.base_price close
    cum_up_cost := (updSide st.cum_up_cost st.cum_up_size (tts.filter isBuyUp)).1
    cum_up_size := (updSide st.cum_up_cost st.cum_up_size (tts.filter isBuyUp)).2
    cum_down_cost := (updSide st.cum_down_cost st.cum_down_size (tts.filter isBuyDown)).1
    cum_down_size := (updSide st.cum_down_cost st.cum_down_size (tts.filter isBuyDown)).2 }

/-- One emitted row of the merged CSV (step 5); blank cells are `none`.
The presentational `time_utc8` column (a date rendering of `timestamp`)
is omitted. -/
structure LedgerRow where
  timestamp : Int
  btc_close : Option ℚ
  btc_delta : Option ℚ
  buy_up_size : Option ℚ
  buy_up_price : Option ℚ
  buy_down_size : Option ℚ
  buy_down_price : Option ℚ
  cum_up_size : Option ℚ
  cum_up_avg_cost : Option ℚ
  cum_down_size : Option ℚ
  cum_down_avg_cost : Option ℚ
  target_shares : Option ℚ
  target_price : Option ℚ
  cash_out_shares : Option ℚ
  cash_out_price : Option ℚ
  hidden_lost : Option ℚ
  hidden_profit : Option ℚ
  trade_count : Option ℕ
deriving DecidableEq

/-- `x if x else ""` on a numeric value: blank exactly when the value is 0. -/
def sizeField (x : ℚ) : Option ℚ := if x ≠ 0 then some x else none

/-- Line 182-183: `round(cum_cost / cum_size, 4) if cum_size > 0 else ""`. -/
def avgCostField (cost size : ℚ) : Option ℚ :=
  if 0 < size then some (roundTo 4 (cost / size)) else none

/-- Lines 191-192: `target_shares = cum_down_size - cum_up_size`, populated
only when `cum_up_size > 0 or cum_down_size > 0`. -/
def targetSharesField (u d : ℚ) : Option ℚ :=
  if 0 < u ∨ 0 < d then some (d - u) else none

/-- `round(1 - avg, 4) if avg else ""` applied to a possibly-blank average
cost cell (lines 194, 196). -/
def targetPriceRaw (x : Option ℚ) : Option ℚ :=
  match x with
  | some a => if a ≠ 0 then some (roundTo 4 (1 - a)) else none
  | none => none

/-- Lines 193-196: pick the side whose average cost feeds `target_price`
by the sign of `target_shares = cum_down_size - cum_up_size`. -/
def targetPriceField (u d : ℚ) (au ad : Option ℚ) : Option ℚ :=
  if 0 < u ∨ 0 < d then (if d - u < 0 then targetPriceRaw au else targetPriceRaw ad)
  else none

/-- Line 197: `cash_out_shares = min(cum_up_size, cum_down_size)`. -/
def cashOutSharesField (u d : ℚ) : Option ℚ :=
  if 0 < u ∨ 0 < d then some (min u d) else none

/-- Lines 198-199: `round(cum_up_avg_cost + cum_down_avg_cost, 4)` when both
average-cost cells are truthy. -/
def cashOutPriceField (u d : ℚ) (au ad : Option ℚ) : Option ℚ :=
  if 0 < u ∨ 0 < d then
    (match au, ad with
     | some x, some y => if x ≠ 0 ∧ y ≠ 0 then some (roundTo 4 (x + y)) else none
     | _, _ => none)
  else none

/-- Lines 204-205: `hidden_lost = round(-abs(target_shares) * (1 - target_price), 4)`
when both cells are non-blank. -/
def hiddenLostField (tsh tp : Option ℚ) : Option ℚ :=
  match tsh, tp with
  | some s, some p => some (roundTo 4 (-|s| * (1 - p)))
  | _, _ => none

/-- Lines 206-207: `hidden_profit = round(cash_out_shares * (1 - cash_out_price), 4)`
when both cells are non-blank. -/
def hiddenProfitField (cs cp : Option ℚ) : Option ℚ :=
  match cs, cp with
  | some s, some p => some (roundTo 4 (s * (1 - p)))
  | _, _ => none

/-- The row emitted for second `ts` (lines 209-229), computed from the
post-update state `st` of that second, the second's close and trade list. -/
def mkRow (ts : Int) (close : Option ℚ) (tts : List Trade) (st : BuildState) : LedgerRow :=
  { timestamp := ts
    btc_close := close
    btc_delta := deltaField st.base_price close
    buy_up_size := sizeField (fillSize (tts.filter isBuyUp))
    buy_up_price := if tts.filter isBuyUp = [] then none else some (fillAvg (tts.filter isBuyUp))
    buy_down_size := sizeField (fillSize (tts.filter isBuyDown))
    buy_down_price := if tts.filter isBuyDown = [] then none else some (fillAvg (tts.filter isBuyDown))
    cum_up_size := sizeField st.cum_up_size
    cum_up_avg_cost := avgCostField st.cum_up_cost st.cum_up_size
    cum_down_size := sizeField st.cum_down_size
    cum_down_avg_cost := avgCostField st.cum_down_cost st.cum_down_size
    target_shares := targetSharesField st.cum_up_size st.cum_down_size
    target_price := targetPriceField st.cum_up_size st.cum_down_size
      (avgCostField st.cum_up_cost st.cum_up_size)
      (avgCostField st.cum_down_cost st.cum_down_size)
    cash_out_shares := cashOutSharesField st.cum_up_size st.cum_down_size
    cash_out_price := cashOutPriceField st.cum_up_size st.cum_down_size
      (avgCostField st.cum_up_cost st.cum_up_size)
      (avgCostField st.cum_down_cost st.cum_down_size)
    hidden_lost := hiddenLostField (targetSharesField st.cum_up_size st.cum_down_size)
      (targetPriceField st.cum_up_size st.cum_down_size
        (avgCostField st.cum_up_cost st.cum_up_size)
        (avgCostField st.cum_down_cost st.cum_down_size))
    hidden_profit := hiddenProfitField (cashOutSharesField st.cum_up_size st.cum_down_size)
      (cashOutPriceField st.cum_up_size st.cum_down_size
        (avgCostField st.cum_up_cost st.cum_up_size)
        (avgCostField st.cum_down_cost st.cum_down_size))
    trade_count := if tts = [] then none else some tts.length }

/-- The body of one loop iteration of step 5: consume second `ts`, return
the updated state and the emitted row. -/
def stepRow (p : Int → Option ℚ) (tr : Int → List Trade) (st : BuildState) (ts : Int) :
    BuildState × LedgerRow :=
  let st' := nextState st (p ts) (tr ts)
  (st', mkRow ts (p ts) (tr ts) st')

/-- The walk over `n` consecutive seconds starting at `ts`. -/
def buildAux (p : Int → Option ℚ) (tr : Int → List Trade) :
    ℕ → BuildState → Int → List LedgerRow
  | 0, _, _ => []
  | n + 1, st, ts =>
    (stepRow p tr st ts).2 :: buildAux p tr n (stepRow p tr st ts).1 (ts + 1)

/-- Step 5 of `main`: `for ts in range(start_ts, end_ts + 1)`, from the fresh
initial state. `p` is the close-price lookup built in step 3 (`kline_dict`);
`tr` is the per-second trade lookup of step 4. -/
def buildRows (a b : Int) (p : Int → Option ℚ) (tr : Int → List Trade) : List LedgerRow :=
  buildAux p tr (b + 1 - a).toNat initState a

/-! ## The strategy evaluator (`analyze_strategy.py`, `analyze_event`) -/

/-- One row of the merged CSV as the evaluator reads it back: only the
timestamp and the reference-close cell matter here; `none` models an empty
close cell (the string truthiness filter keeps every nonempty cell,
including one holding `0.0`). -/
structure MergedRow where
  timestamp : Int
  close : Option ℚ
deriving DecidableEq

/-- Line 47: `prices = [float(r[close]) for r in merged_rows if r[close]]`. -/
def definedCloses (rows : List MergedRow) : List ℚ := rows.filterMap (fun r => r.close)

/-- Lines 48-50: `price_change = prices[-1] - prices[0]`; `none` models the
IndexError path when no close is defined. -/
def price_change (rows : List MergedRow) : Option ℚ :=
  match (definedCloses rows).head?, (definedCloses rows).getLast? with
  | some s, some e => some (e - s)
  | _, _ => none

/-- Line 59: `actual_outcome = "Up" if price_change > 0 else "Down"`. -/
def actual_outcome (rows : List MergedRow) : Option String :=
  (price_change rows).map (fun c => if 0 < c then "Up" else "Down")

/-- Lines 62-63: total BUY size on outcome Up over the raw trade list. -/
def buyUpTotal (trades : List Trade) : ℚ := fillSize (trades.filter isBuyUp)

/-- Lines 64-65: total BUY size on outcome Down over the raw trade list. -/
def buyDownTotal (trades : List Trade) : ℚ := fillSize (trades.filter isBuyDown)

/-- Lines 67-68: `sum(size * price)` over BUY-Up trades. -/
def buyUpCost (trades : List Trade) : ℚ :=
  ((trades.filter isBuyUp).map (fun t => t.size * t.price)).sum

/-- Lines 69-70: `sum(size * price)` over BUY-Down trades. -/
def buyDownCost (trades : List Trade) : ℚ :=
  ((trades.filter isBuyDown).map (fun t => t.size * t.price)).sum

/-- `buy_up_cost + buy_down_cost`. -/
def totalCost (trades : List Trade) : ℚ := buyUpCost trades + buyDownCost trades

/-- Lines 80-85: the winning side's total size pays out at 1.0. -/
def payout (rows : List MergedRow) (trades : List Trade) : Option ℚ :=
  (actual_outcome rows).map (fun o => if o = "Up" then buyUpTotal trades else buyDownTotal trades)

/-- Lines 82, 85: `profit = payout - (buy_up_cost + buy_down_cost)`. -/
def profit (rows : List MergedRow) (trades : List Trade) : Option ℚ :=
  (payout rows trades).map (fun pa => pa - totalCost trades)

/-- Line 92: `roi = profit / total_cost * 100 if total_cost > 0 else 0`. -/
def roi (rows : List MergedRow) (trades : List Trade) : Option ℚ :=
  (profit rows trades).map (fun pr =>
    if 0 < totalCost trades then pr / totalCost trades * 100 else 0)

/-! ## Basic lemmas about rounding -/

lemma ifloor_intCast (k : ℤ) : ifloor (k : ℚ) = k := by
  simp [ifloor, Rat.num_intCast, Rat.den_intCast, Int.fdiv_one]

lemma rnd_intCast (k : ℤ) : rnd (k : ℚ) = k := by
  unfold rnd
  rw [ifloor_intCast]
  simp only [sub_self]
  norm_num

/-- Rounding to `n` decimals is the identity on rationals that already have
at most `n` decimals. -/
lemma roundTo_eq_self {n : ℕ} {q : ℚ} (m : ℤ) (h : q * 10 ^ n = (m : ℚ)) :
    roundTo n q = q := by
  have h10 : ((10 : ℚ) ^ n) ≠ 0 := by positivity
  rw [roundTo, h, rnd_intCast, div_eq_iff h10]
  exact h.symm

/-- The output of `roundTo n` has at most `n` decimals. -/
lemma roundTo_mul_pow_int (n : ℕ) (q : ℚ) :
    ∃ m : ℤ, roundTo n q * 10 ^ n = (m : ℚ) := by
  have h10 : ((10 : ℚ) ^ n) ≠ 0 := by positivity
  exact ⟨rnd (q * 10 ^ n), by rw [roundTo, div_mul_cancel₀ _ h10]⟩

/-- `round(1 - a, 4)` collapses to `1 - a` when `a` itself is a 4-decimal
rounding result, as on lines 194 and 196 of the source. -/
lemma roundTo_one_sub (x : ℚ) : roundTo 4 (1 - roundTo 4 x) = 1 - roundTo 4 x := by
  obtain ⟨m, hm⟩ := roundTo_mul_pow_int 4 x
  refine roundTo_eq_self (10 ^ 4 - m) ?_
  rw [sub_mul, one_mul, hm]
  push_cast
  ring

/-! ## Basic lemmas about the walk -/

lemma buildAux_zero (p : Int → Option ℚ) (tr : Int → List Trade) (st : BuildState) (ts : Int) :
    buildAux p tr 0 st ts = [] := rfl

lemma buildAux_succ (p : Int → Option ℚ) (tr : Int → List Trade) (n : ℕ) (st : BuildState)
    (ts : Int) :
    buildAux p tr (n + 1) st ts =
      (stepRow p tr st ts).2 :: buildAux p tr n (stepRow p tr st ts).1 (ts + 1) := rfl

lemma buildAux_one (p : Int → Option ℚ) (tr : Int → List Trade) (st : BuildState) (ts : Int) :
    buildAux p tr 1 st ts = [(stepRow p tr st ts).2] := rfl

lemma buildAux_length (p : Int → Option ℚ) (tr : Int → List Trade) :
    ∀ (n : ℕ) (st : BuildState) (ts : Int), (buildAux p tr n st ts).length = n := by
  intro n
  induction n with
  | zero => intro st ts; rfl
  | succ n ih =>
    intro st ts
    rw [buildAux_succ, List.length_cons, ih]

lemma stepRow_timestamp (p : Int → Option ℚ) (tr : Int → List Trade) (st : BuildState)
    (ts : Int) : (stepRow p tr st ts).2.timestamp = ts := rfl

lemma buildAux_timestamps (p : Int → Option ℚ) (tr : Int → List Trade) :
    ∀ (n : ℕ) (st : BuildState) (ts : Int),
      (buildAux p tr n st ts).map (fun r => r.timestamp) =
        (List.range n).map (fun (i : ℕ) => ts + (i : ℤ)) := by
  intro n
  induction n with
  | zero => intro st ts; rfl
  | succ n ih =>
    intro st ts
    rw [buildAux_succ, List.range_succ_eq_map, List.map_cons, List.map_cons,
      stepRow_timestamp, ih, List.map_map]
    refine congrArg₂ _ (by norm_num) ?_
    refine List.map_congr_left (fun i _ => ?_)
    simp only [Function.comp_apply]
    push_cast
    ring

/-! ## State invariants of the walk -/

lemma updSide_cum_le (cost size : ℚ) (l : List Trade) :
    size ≤ (updSide cost size l).2 := by
  unfold updSide
  split_ifs with h
  · simpa using le_of_lt (by linarith)
  · exact le_refl size

/-- The loop state keeps both cumulative sizes non-negative (the update is
gated on a strictly positive fill). -/
def StOK (st : BuildState) : Prop := 0 ≤ st.cum_up_size ∧ 0 ≤ st.cum_down_size

lemma StOK_init : StOK initState := ⟨le_refl 0, le_refl 0⟩

lemma nextState_up_le (st : BuildState) (c : Option ℚ) (tts : List Trade) :
    st.cum_up_size ≤ (nextState st c tts).cum_up_size :=
  updSide_cum_le st.cum_up_cost st.cum_up_size (tts.filter isBuyUp)

lemma nextState_down_le (st : BuildState) (c : Option ℚ) (tts : List Trade) :
    st.cum_down_size ≤ (nextState st c tts).cum_down_size :=
  updSide_cum_le st.cum_down_cost st.cum_down_size (tts.filter isBuyDown)

lemma StOK_next (st : BuildState) (c : Option ℚ) (tts : List Trade) (h : StOK st) :
    StOK (nextState st c tts) :=
  ⟨le_trans h.1 (nextState_up_le st c tts), le_trans h.2 (nextState_down_le st c tts)⟩

/-- Every row of the walk is the emission of one step taken from a state
with non-negative cumulative sizes. -/
lemma buildAux_mem_induct (p : Int → Option ℚ) (tr : Int → List Trade)
    (P : LedgerRow → Prop)
    (hstep : ∀ (st : BuildState) (ts : Int), StOK st → P (stepRow p tr st ts).2) :
    ∀ (n : ℕ) (st : BuildState) (ts : Int), StOK st →
      ∀ r ∈ buildAux p tr n st ts, P r := by
  intro n
  induction n with
  | zero => intro st ts _ r hr; simp [buildAux_zero] at hr
  | succ n ih =>
    intro st ts hok r hr
    rw [buildAux_succ] at hr
    rcases List.mem_cons.mp hr with h | h
    · exact h ▸ hstep st ts hok
    · exact ih (stepRow p tr st ts).1 (ts + 1) (StOK_next st (p ts) (tr ts) hok) r h

/-- The emitted cumulative-size cell, read back as a number with blank = 0. -/
def cumUpOf (r : LedgerRow) : ℚ := r.cum_up_size.getD 0

/-- Down-side counterpart of `cumUpOf`. -/
def cumDownOf (r : LedgerRow) : ℚ := r.cum_down_size.getD 0

lemma sizeField_getD (x : ℚ) : (sizeField x).getD 0 = x := by
  unfold sizeField
  split_ifs with h
  · rfl
  · simpa using (not_not.mp h).symm

lemma stepRow_cumUpOf (p : Int → Option ℚ) (tr : Int → List Trade) (st : BuildState)
    (ts : Int) : cumUpOf (stepRow p tr st ts).2 = (stepRow p tr st ts).1.cum_up_size :=
  sizeField_getD _

lemma stepRow_cumDownOf (p : Int → Option ℚ) (tr : Int → List Trade) (st : BuildState)
    (ts : Int) : cumDownOf (stepRow p tr st ts).2 = (stepRow p tr st ts).1.cum_down_size :=
  sizeField_getD _

/-- Every row of the walk reports cumulative sizes at least the sizes of the
state the walk started from. -/
lemma buildAux_cum_lower (p : Int → Option ℚ) (tr : Int → List Trade) :
    ∀ (n : ℕ) (st : BuildState) (ts : Int), ∀ r ∈ buildAux p tr n st ts,
      st.cum_up_size ≤ cumUpOf r ∧ st.cum_down_size ≤ cumDownOf r := by
  intro n
  induction n with
  | zero => intro st ts r hr; simp [buildAux_zero] at hr
  | succ n ih =>
    intro st ts r hr
    rw [buildAux_succ] at hr
    rcases List.mem_cons.mp hr with h | h
    · subst h
      rw [stepRow_cumUpOf, stepRow_cumDownOf]
      exact ⟨nextState_up_le st (p ts) (tr ts), nextState_down_le st (p ts) (tr ts)⟩
    · have h2 := ih (stepRow p tr st ts).1 (ts + 1) r h
      exact ⟨le_trans (nextState_up_le st (p ts) (tr ts)) h2.1,
        le_trans (nextState_down_le st (p ts) (tr ts)) h2.2⟩

/-- Along the emitted row sequence, both cumulative-size columns are
non-decreasing. -/
lemma buildAux_cum_pairwise (p : Int → Option ℚ) (tr : Int → List Trade) :
    ∀ (n : ℕ) (st : BuildState) (ts : Int),
      List.Pairwise (fun r₁ r₂ => cumUpOf r₁ ≤ cumUpOf r₂ ∧ cumDownOf r₁ ≤ cumDownOf r₂)
        (buildAux p tr n st ts) := by
  intro n
  induction n with
  | zero => intro st ts; simp [buildAux_zero]
  | succ n ih =>
    intro st ts
    rw [buildAux_succ]
    refine List.Pairwise.cons (fun r hr => ?_) (ih _ _)
    have h2 := buildAux_cum_lower p tr n (stepRow p tr st ts).1 (ts + 1) r hr
    rw [stepRow_cumUpOf, stepRow_cumDownOf]
    exact h2

/-! ## Congruence: the walk depends only on its inputs -/

lemma buildAux_congr (p₁ p₂ : Int → Option ℚ) (t₁ t₂ : Int → List Trade)
    (hp : ∀ s, p₁ s = p₂ s) (ht : ∀ s, t₁ s = t₂ s) :
    ∀ (n : ℕ) (st : BuildState) (ts : Int),
      buildAux p₁ t₁ n st ts = buildAux p₂ t₂ n st ts := by
  have hp2 : p₁ = p₂ := funext hp
  have ht2 : t₁ = t₂ := funext ht
  subst hp2
  subst ht2
  intro n st ts
  rfl

lemma nextState_filter_congr (st : BuildState) (c : Option ℚ) (t₁ t₂ : List Trade)
    (hu : t₁.filter isBuyUp = t₂.filter isBuyUp)
    (hd : t₁.filter isBuyDown = t₂.filter isBuyDown) :
    nextState st c t₁ = nextState st c t₂ := by
  unfold nextState
  rw [hu, hd]

lemma mkRow_cum_up_size (ts : Int) (c : Option ℚ) (tts : List Trade) (st : BuildState) :
    (mkRow ts c tts st).cum_up_size = sizeField st.cum_up_size := rfl

lemma mkRow_cum_down_size (ts : Int) (c : Option ℚ) (tts : List Trade) (st : BuildState) :
    (mkRow ts c tts st).cum_down_size = sizeField st.cum_down_size := rfl

/-- The cumulative-size columns of the walk are unchanged by any edit to the
trade streams that preserves the two BUY partitions of every second. -/
lemma buildAux_cumPair_congr (p : Int → Option ℚ) (t₁ t₂ : Int → List Trade)
    (hu : ∀ s, (t₁ s).filter isBuyUp = (t₂ s).filter isBuyUp)
    (hd : ∀ s, (t₁ s).filter isBuyDown = (t₂ s).filter isBuyDown) :
    ∀ (n : ℕ) (st : BuildState) (ts : Int),
      (buildAux p t₁ n st ts).map (fun r => (r.cum_up_size, r.cum_down_size)) =
        (buildAux p t₂ n st ts).map (fun r => (r.cum_up_size, r.cum_down_size)) := by
  intro n
  induction n with
  | zero => intro st ts; rfl
  | succ n ih =>
    intro st ts
    have hst : (stepRow p t₁ st ts).1 = (stepRow p t₂ st ts).1 :=
      nextState_filter_congr st (p ts) (t₁ ts) (t₂ ts) (hu ts) (hd ts)
    rw [buildAux_succ, buildAux_succ, List.map_cons, List.map_cons]
    refine congrArg₂ _ ?_ ?_
    · show ((mkRow ts (p ts) (t₁ ts) (stepRow p t₁ st ts).1).cum_up_size,
        (mkRow ts (p ts) (t₁ ts) (stepRow p t₁ st ts).1).cum_down_size) =
        ((mkRow ts (p ts) (t₂ ts) (stepRow p t₂ st ts).1).cum_up_size,
        (mkRow ts (p ts) (t₂ ts) (stepRow p t₂ st ts).1).cum_down_size)
      rw [mkRow_cum_up_size, mkRow_cum_down_size, mkRow_cum_up_size, mkRow_cum_down_size, hst]
    · rw [hst, ih]

/-! ## Shape of the emitted target fields -/

lemma sizeField_ne_none (x : ℚ) : sizeField x ≠ none ↔ x ≠ 0 := by
  unfold sizeField
  split_ifs with h
  · simpa using h
  · simpa using not_not.mp h

/-- The blank-vs-rounded average cost cell, with the rounding stripped:
what `1 - avg` looks like once the no-op re-rounding of lines 194/196 is
discharged. -/
def tpOf : Option ℚ → Option ℚ
  | some a => if a ≠ 0 then some (1 - a) else none
  | none => none

lemma targetPriceRaw_avgCostField (cost size : ℚ) :
    targetPriceRaw (avgCostField cost size) = tpOf (avgCostField cost size) := by
  unfold avgCostField
  split_ifs with h
  · simp only [targetPriceRaw, tpOf]
    split_ifs with h2
    · rw [roundTo_one_sub]
    · rfl
  · rfl

lemma mkRow_target_shares (ts : Int) (c : Option ℚ) (tts : List Trade) (st : BuildState) :
    (mkRow ts c tts st).target_shares = targetSharesField st.cum_up_size st.cum_down_size := rfl

lemma mkRow_target_price (ts : Int) (c : Option ℚ) (tts : List Trade) (st : BuildState) :
    (mkRow ts c tts st).target_price =
      targetPriceField st.cum_up_size st.cum_down_size
        (avgCostField st.cum_up_cost st.cum_up_size)
        (avgCostField st.cum_down_cost st.cum_down_size) := rfl

lemma mkRow_cum_up_avg_cost (ts : Int) (c : Option ℚ) (tts : List Trade) (st : BuildState) :
    (mkRow ts c tts st).cum_up_avg_cost = avgCostField st.cum_up_cost st.cum_up_size := rfl

lemma mkRow_cum_down_avg_cost (ts : Int) (c : Option ℚ) (tts : List Trade) (st : BuildState) :
    (mkRow ts c tts st).cum_down_avg_cost = avgCostField st.cum_down_cost st.cum_down_size := rfl

/-- On a position-defined row the emitted `target_shares` cell is Down
cumulative size minus Up cumulative size, cells read back with blank = 0. -/
lemma mkRow_target_shares_eq (ts : Int) (c : Option ℚ) (tts : List Trade) (st : BuildState)
    (h : StOK st)
    (hne : (mkRow ts c tts st).cum_up_size ≠ none ∨ (mkRow ts c tts st).cum_down_size ≠ none) :
    (mkRow ts c tts st).target_shares =
      some (cumDownOf (mkRow ts c tts st) - cumUpOf (mkRow ts c tts st)) := by
  rw [mkRow_cum_up_size, mkRow_cum_down_size, sizeField_ne_none, sizeField_ne_none] at hne
  have hpos : 0 < st.cum_up_size ∨ 0 < st.cum_down_size := by
    rcases hne with h1 | h1
    · exact Or.inl (lt_of_le_of_ne h.1 (Ne.symm h1))
    · exact Or.inr (lt_of_le_of_ne h.2 (Ne.symm h1))
  rw [mkRow_target_shares]
  unfold targetSharesField
  rw [if_pos hpos]
  unfold cumDownOf cumUpOf
  rw [mkRow_cum_up_size, mkRow_cum_down_size, sizeField_getD, sizeField_getD]

/-- On a row whose `target_shares` cell holds `v`, the emitted target price
is `1 - avg_cost` of the Up side when `v < 0` and of the Down side
otherwise, blank when the selected average-cost cell is blank or zero. -/
lemma mkRow_target_price_eq (ts : Int) (c : Option ℚ) (tts : List Trade) (st : BuildState)
    (v : ℚ) (hv : (mkRow ts c tts st).target_shares = some v) :
    (v < 0 → (mkRow ts c tts st).target_price = tpOf (mkRow ts c tts st).cum_up_avg_cost) ∧
    (0 ≤ v → (mkRow ts c tts st).target_price = tpOf (mkRow ts c tts st).cum_down_avg_cost) := by
  rw [mkRow_target_shares] at hv
  unfold targetSharesField at hv
  by_cases hpos : 0 < st.cum_up_size ∨ 0 < st.cum_down_size
  · rw [if_pos hpos] at hv
    have hv2 : st.cum_down_size - st.cum_up_size = v := Option.some_inj.mp hv
    constructor
    · intro hneg
      rw [mkRow_target_price, mkRow_cum_up_avg_cost]
      unfold targetPriceField
      rw [if_pos hpos, if_pos (hv2 ▸ hneg), targetPriceRaw_avgCostField]
    · intro hge
      rw [mkRow_target_price, mkRow_cum_down_avg_cost]
      unfold targetPriceField
      rw [if_pos hpos, if_neg (by rw [hv2]; exact not_lt.mpr hge), targetPriceRaw_avgCostField]
  · rw [if_neg hpos] at hv
    exact absurd hv (by simp)

/-! ## Grouping lemmas -/

/-- Restricting the raw trade list to trades satisfying `keep` does not
change any per-second `q`-partition, provided `q` implies `keep`. -/
lemma tradesByTs_filter_restrict (trades : List Trade) (s : Int) (q keep : Trade → Bool)
    (himp : ∀ t, q t = true → keep t = true) :
    (tradesByTs (trades.filter keep) s).filter q = (tradesByTs trades s).filter q := by
  unfold tradesByTs
  rw [List.filter_filter, List.filter_filter, List.filter_filter]
  refine List.filter_congr fun t _ => ?_
  by_cases hq : q t = true
  · have hk := himp t hq
    simp [hq, hk]
  · simp [Bool.eq_false_iff.mpr hq]

/-- Dropping the trades with a falsy timestamp changes no per-second group:
the grouping already drops them. -/
lemma tradesByTs_drop_falsy (trades : List Trade) (s : Int) :
    tradesByTs (trades.filter (fun t => t.timestamp.getD 0 != 0)) s =
      tradesByTs trades s := by
  unfold tradesByTs
  rw [List.filter_filter]
  refine List.filter_congr fun t _ => ?_
  cases h : t.timestamp with
  | none => simp [tsKeep, h]
  | some v =>
    by_cases hv : v = 0
    · simp [tsKeep, h, hv]
    · simp [tsKeep, h, hv]

/-! ## Concrete scenarios used by counterexamples and witnesses -/

/-- A window with no reference price at any second. -/
def noPrices : Int → Option ℚ := fun _ => none

/-- An empty per-second trade stream. -/
def emptyTr : Int → List Trade := fun _ => []

/-- Two BUY fills in second 1: 2 Up shares at 0.6 and 1 Down share at 0.3. -/
def exTradesA : List Trade :=
  [⟨some 1, "BUY", "Up", 2, 3/5⟩, ⟨some 1, "BUY", "Down", 1, 3/10⟩]

/-- The single row the walk over `[1, 1]` emits for `exTradesA`. -/
def exRowA : LedgerRow :=
  mkRow 1 none (tradesByTs exTradesA 1) (nextState initState none (tradesByTs exTradesA 1))

/-- Two BUY fills in second 1: 1 Up share at 0.6 and 1 Down share at 0.3,
leaving a perfectly hedged (zero net) position. -/
def exTradesB : List Trade :=
  [⟨some 1, "BUY", "Up", 1, 3/5⟩, ⟨some 1, "BUY", "Down", 1, 3/10⟩]

/-- The single row the walk over `[1, 1]` emits for `exTradesB`. -/
def exRowB : LedgerRow :=
  mkRow 1 none (tradesByTs exTradesB 1) (nextState initState none (tradesByTs exTradesB 1))

lemma toNat_window_one : ((1 : ℤ) + 1 - 1).toNat = 1 := by norm_num

lemma rowsA_eq : buildRows 1 1 noPrices (tradesByTs exTradesA) = [exRowA] := by
  rw [buildRows, toNat_window_one, buildAux_one]
  rfl

lemma rowsB_eq : buildRows 1 1 noPrices (tradesByTs exTradesB) = [exRowB] := by
  rw [buildRows, toNat_window_one, buildAux_one]
  rfl

lemma grpA_eq : tradesByTs exTradesA 1 = exTradesA := by
  simp [tradesByTs, exTradesA, tsKeep, List.filter]

lemma grpB_eq : tradesByTs exTradesB 1 = exTradesB := by
  simp [tradesByTs, exTradesB, tsKeep, List.filter]

lemma stA_eq : nextState initState none (tradesByTs exTradesA 1) =
    ⟨none, 6/5, 2, 3/10, 1⟩ := by
  rw [grpA_eq]
  simp [nextState, initState, updSide, fillSize, fillAvg, anchorAfter, exTradesA,
    isBuyUp, isBuyDown, List.filter]
  all_goals norm_num

lemma stB_eq : nextState initState none (tradesByTs exTradesB 1) =
    ⟨none, 3/5, 1, 3/10, 1⟩ := by
  rw [grpB_eq]
  simp [nextState, initState, updSide, fillSize, fillAvg, anchorAfter, exTradesB,
    isBuyUp, isBuyDown, List.filter]

lemma exRowA_cum_up : exRowA.cum_up_size = some 2 := by
  simp only [exRowA, mkRow_cum_up_size, stA_eq]
  simp [sizeField]

lemma exRowA_cum_down : exRowA.cum_down_size = some 1 := by
  simp only [exRowA, mkRow_cum_down_size, stA_eq]
  simp [sizeField]

lemma exRowA_cumUpOf : cumUpOf exRowA = 2 := by rw [cumUpOf, exRowA_cum_up]; rfl

lemma exRowA_cumDownOf : cumDownOf exRowA = 1 := by rw [cumDownOf, exRowA_cum_down]; rfl

lemma exRowA_target_shares : exRowA.target_shares = some (-1) := by
  simp only [exRowA, mkRow_target_shares, stA_eq]
  simp [targetSharesField]
  norm_num

lemma exRowB_cum_up : exRowB.cum_up_size = some 1 := by
  simp only [exRowB, mkRow_cum_up_size, stB_eq]
  simp [sizeField]

lemma exRowB_cumUpOf : cumUpOf exRowB = 1 := by rw [cumUpOf, exRowB_cum_up]; rfl

lemma exRowB_cum_down : exRowB.cum_down_size = some 1 := by
  simp only [exRowB, mkRow_cum_down_size, stB_eq]
  simp [sizeField]

lemma exRowB_cumDownOf : cumDownOf exRowB = 1 := by rw [cumDownOf, exRowB_cum_down]; rfl

lemma exRowB_target_shares : exRowB.target_shares = some 0 := by
  simp only [exRowB, mkRow_target_shares, stB_eq]
  simp [targetSharesField]

lemma exRowB_cum_up_avg : exRowB.cum_up_avg_cost = some (3/5) := by
  have r1 : roundTo 4 ((3 : ℚ)/5) = 3/5 := roundTo_eq_self 6000 (by norm_num)
  simp only [exRowB, mkRow_cum_up_avg_cost, stB_eq]
  simp [avgCostField]
  all_goals norm_num [r1]

lemma exRowB_cum_down_avg : exRowB.cum_down_avg_cost = some (3/10) := by
  have r1 : roundTo 4 ((3 : ℚ)/10) = 3/10 := roundTo_eq_self 3000 (by norm_num)
  simp only [exRowB, mkRow_cum_down_avg_cost, stB_eq]
  simp [avgCostField]
  all_goals norm_num [r1]

lemma exRowB_target_price : exRowB.target_price = some (7/10) := by
  have r1 : roundTo 4 ((3 : ℚ)/10) = 3/10 := roundTo_eq_self 3000 (by norm_num)
  have r2 : roundTo 4 ((7 : ℚ)/10) = 7/10 := roundTo_eq_self 7000 (by norm_num)
  simp only [exRowB, mkRow_target_price, stB_eq]
  simp [targetPriceField, targetPriceRaw, avgCostField]
  all_goals norm_num [r1, r2]

/-- Evaluator input whose first and last defined closes are equal (a tie). -/
def tieRows : List MergedRow := [⟨100, some 60000⟩, ⟨104, some 60000⟩]

/-- Evaluator input whose reference price strictly fell. -/
def fallRows : List MergedRow := [⟨100, some 60000⟩, ⟨104, some 59000⟩]

lemma price_change_tie : price_change tieRows = some 0 := by
  simp [price_change, definedCloses, tieRows]

lemma price_change_fall : price_change fallRows = some (-1000) := by
  simp [price_change, definedCloses, fallRows]
  norm_num

/-- Both halves of the per-second accumulator update, phrased as the
unconditional `+=` of the spec: when the partition total is not positive it
is zero (sizes are non-negative), so skipping the branch equals adding it. -/
lemma updSide_add (cost size : ℚ) (l : List Trade) (h : ∀ t ∈ l, 0 ≤ t.size) :
    (updSide cost size l).1 = cost + fillSize l * fillAvg l ∧
    (updSide cost size l).2 = size + fillSize l := by
  unfold updSide
  split_ifs with h0
  · exact ⟨rfl, rfl⟩
  · have h1 : 0 ≤ fillSize l := by
      refine List.sum_nonneg ?_
      intro x hx
      obtain ⟨t, ht, hteq⟩ := List.mem_map.mp hx
      exact hteq ▸ h t ht
    have h2 : fillSize l = 0 := le_antisymm (not_lt.mp h0) h1
    exact ⟨by rw [h2]; ring, by rw [h2]; ring⟩

/-! ## C1 -/

/-- C1 counterexample: on the window `[1,1]` with BUY fills of 2 Up shares
and 1 Down share, the emitted net-exposure cell (`target_shares`) is `-1`,
not `cum_size[Up] - cum_size[Down] = 1`: the claimed formula
`net_exposure = cum_size[B] - cum_size[A]` is false of the emitted field. -/
theorem net_exposure_formula_refuted :
    ¬ (∀ r ∈ buildRows 1 1 noPrices (tradesByTs exTradesA),
        (r.cum_up_size ≠ none ∨ r.cum_down_size ≠ none) →
        r.target_shares = some (cumUpOf r - cumDownOf r)) := by
  intro h
  have hm : exRowA ∈ buildRows 1 1 noPrices (tradesByTs exTradesA) := by
    rw [rowsA_eq]
    exact List.mem_cons_self _ _
  have h2 := h exRowA hm (Or.inl (by rw [exRowA_cum_up]; simp))
  rw [exRowA_target_shares, exRowA_cumUpOf, exRowA_cumDownOf] at h2
  norm_num at h2

/-- C1 amended: in every ledger row whose position fields are populated
(some cumulative size is nonzero), the emitted net-exposure cell
`target_shares` equals the cumulative size of outcome A (Down) minus the
cumulative size of outcome B (Up) — the negation of the claimed formula. -/
theorem target_shares_eq_cumDown_sub_cumUp :
    ∀ (a b : ℤ) (p : Int → Option ℚ) (tr : Int → List Trade),
      ∀ r ∈ buildRows a b p tr,
        (r.cum_up_size ≠ none ∨ r.cum_down_size ≠ none) →
        r.target_shares = some (cumDownOf r - cumUpOf r) := by
  intro a b p tr r hr
  refine buildAux_mem_induct p tr
    (fun r => (r.cum_up_size ≠ none ∨ r.cum_down_size ≠ none) →
      r.target_shares = some (cumDownOf r - cumUpOf r))
    (fun st ts hok => ?_) ((b + 1 - a).toNat) initState a StOK_init r hr
  exact mkRow_target_shares_eq ts (p ts) (tr ts) (nextState st (p ts) (tr ts))
    (StOK_next st (p ts) (tr ts) hok)

/-- C1 witness: amended statement instantiated on the `exTradesA` row. -/
theorem target_shares_eq_cumDown_sub_cumUp_witness :
    exRowA ∈ buildRows 1 1 noPrices (tradesByTs exTradesA) ∧
    (exRowA.cum_up_size ≠ none ∨ exRowA.cum_down_size ≠ none) ∧
    exRowA.target_shares = some (cumDownOf exRowA - cumUpOf exRowA) := by
  have hm : exRowA ∈ buildRows 1 1 noPrices (tradesByTs exTradesA) := by
    rw [rowsA_eq]
    exact List.mem_cons_self _ _
  have hne : exRowA.cum_up_size ≠ none ∨ exRowA.cum_down_size ≠ none :=
    Or.inl (by rw [exRowA_cum_up]; simp)
  exact ⟨hm, hne,
    target_shares_eq_cumDown_sub_cumUp 1 1 noPrices (tradesByTs exTradesA) exRowA hm hne⟩

/-! ## C3 -/

/-- C3 counterexample: a perfectly hedged row (1 Up at 0.6, 1 Down at 0.3,
net exposure `cum_up - cum_down = 0`). The claim's `otherwise` branch says
`target_price = 1 - avg_cost[B] = 0.4`, but the emitted value is
`1 - avg_cost[A] = 0.7`: at zero net exposure the code prices the Down
side, not the Up side. -/
theorem target_price_zero_case_refuted :
    ¬ (∀ r ∈ buildRows 1 1 noPrices (tradesByTs exTradesB),
        (r.cum_up_size ≠ none ∨ r.cum_down_size ≠ none) →
        (if cumUpOf r - cumDownOf r < 0 then r.target_price = tpOf r.cum_down_avg_cost
         else r.target_price = tpOf r.cum_up_avg_cost)) := by
  intro h
  have hm : exRowB ∈ buildRows 1 1 noPrices (tradesByTs exTradesB) := by
    rw [rowsB_eq]
    exact List.mem_cons_self _ _
  have h2 := h exRowB hm (Or.inl (by rw [exRowB_cum_up]; simp))
  rw [exRowB_cumUpOf, exRowB_cumDownOf, if_neg (by norm_num)] at h2
  rw [exRowB_target_price, exRowB_cum_up_avg] at h2
  norm_num [tpOf] at h2

/-- C3 amended: on every row whose `target_shares` cell holds `v`
(so `v = cum_size[A] - cum_size[B]`, the emitted net-exposure), the target
price is `1 - avg_cost[B]` (Up) when `v < 0` and `1 - avg_cost[A]` (Down)
otherwise — including at zero net exposure — and is blank when the selected
average-cost cell is blank or zero. -/
theorem target_price_side_rule :
    ∀ (a b : ℤ) (p : Int → Option ℚ) (tr : Int → List Trade),
      ∀ r ∈ buildRows a b p tr, ∀ v : ℚ, r.target_shares = some v →
        ((v < 0 → r.target_price = tpOf r.cum_up_avg_cost) ∧
         (0 ≤ v → r.target_price = tpOf r.cum_down_avg_cost)) := by
  intro a b p tr r hr
  refine buildAux_mem_induct p tr
    (fun r => ∀ v : ℚ, r.target_shares = some v →
      ((v < 0 → r.target_price = tpOf r.cum_up_avg_cost) ∧
       (0 ≤ v → r.target_price = tpOf r.cum_down_avg_cost)))
    (fun st ts _ => ?_) ((b + 1 - a).toNat) initState a StOK_init r hr
  intro v hv
  exact mkRow_target_price_eq ts (p ts) (tr ts) (nextState st (p ts) (tr ts)) v hv

/-- C3 witness: the amended statement instantiated on the hedged row, where
`target_shares = some 0` selects the Down side. -/
theorem target_price_side_rule_witness :
    exRowB ∈ buildRows 1 1 noPrices (tradesByTs exTradesB) ∧
    exRowB.target_shares = some 0 ∧
    exRowB.target_price = tpOf exRowB.cum_down_avg_cost := by
  have hm : exRowB ∈ buildRows 1 1 noPrices (tradesByTs exTradesB) := by
    rw [rowsB_eq]
    exact List.mem_cons_self _ _
  exact ⟨hm, exRowB_target_shares,
    (target_price_side_rule 1 1 noPrices (tradesByTs exTradesB) exRowB hm 0
      exRowB_target_shares).2 (le_refl 0)⟩

/-! ## C2 -/

/-- C2 counterexample: when the first and last defined closes are equal the
evaluator returns `"Down"` — the very value of the strictly-falling case —
so a tie does not resolve to a distinct tie state. -/
theorem tie_state_refuted :
    actual_outcome tieRows = some "Down" ∧ actual_outcome fallRows = some "Down" := by
  constructor
  · rw [actual_outcome, price_change_tie]
    norm_num
  · rw [actual_outcome, price_change_fall]
    norm_num

/-- C2 amended: with `c` the change from first to last defined close,
`actual_outcome` is `"Up"` for `c > 0` and `"Down"` otherwise — equal closes
fall into the `"Down"` (outcome A wins) branch, not a tie state — and ROI is
the guarded `0` whenever the total cost is `0`, so no division by zero is
performed for payout or ROI. -/
theorem actual_outcome_cases :
    ∀ (rows : List MergedRow) (trades : List Trade) (c : ℚ),
      price_change rows = some c →
      ((0 < c → actual_outcome rows = some "Up") ∧
       (c ≤ 0 → actual_outcome rows = some "Down") ∧
       (totalCost trades = 0 → roi rows trades = some 0)) := by
  intro rows trades c h
  refine ⟨fun hc => ?_, fun hc => ?_, fun hcost => ?_⟩
  · rw [actual_outcome, h]
    simp [if_pos hc]
  · rw [actual_outcome, h]
    simp [if_neg (not_lt.mpr hc)]
  · rw [roi, profit, payout, actual_outcome, h]
    simp [hcost]

/-- C2 witness: the amended statement on the tie input with an empty trade
list (zero total cost). -/
theorem actual_outcome_cases_witness :
    price_change tieRows = some 0 ∧ totalCost [] = 0 ∧
    actual_outcome tieRows = some "Down" ∧ roi tieRows [] = some 0 := by
  have hcost : totalCost [] = 0 := by norm_num [totalCost, buyUpCost, buyDownCost]
  have h := actual_outcome_cases tieRows [] 0 price_change_tie
  exact ⟨price_change_tie, hcost, h.2.1 (le_refl 0), h.2.2 hcost⟩

/-! ## C4 -/

/-- C4 counterexample: an inverted window (`start_ts = 5 > 3 = end_ts`) is
not rejected: the per-second pass completes normally and returns the empty
row list (the program only fails later, outside the pass, when the CSV
writer reads `rows[0]`). -/
theorem inverted_window_pass_completes :
    buildRows 5 3 noPrices emptyTr = [] := by
  rw [buildRows]
  have h0 : ((3 : ℤ) + 1 - 5).toNat = 0 := by norm_num
  rw [h0, buildAux_zero]

/-- C4 amended: the pass is total — on any window, with any (possibly
empty) price and trade data, it returns exactly `(end - start + 1)⁺` rows;
an inverted window yields the empty list, with no precondition check. -/
theorem ledger_pass_total :
    ∀ (a b : ℤ) (p : Int → Option ℚ) (tr : Int → List Trade),
      (b < a → buildRows a b p tr = []) ∧
      (buildRows a b p tr).length = (b + 1 - a).toNat := by
  intro a b p tr
  constructor
  · intro hba
    rw [buildRows]
    have h0 : (b + 1 - a).toNat = 0 := by omega
    rw [h0, buildAux_zero]
  · rw [buildRows, buildAux_length]

/-- C4 witness: the amended statement on the inverted window `[5, 3]`. -/
theorem ledger_pass_total_witness :
    ((3 : ℤ) < 5 ∧ buildRows 5 3 noPrices emptyTr = []) ∧
    (buildRows 5 3 noPrices emptyTr).length = ((3 : ℤ) + 1 - 5).toNat :=
  ⟨⟨by norm_num, (ledger_pass_total 5 3 noPrices emptyTr).1 (by norm_num)⟩,
   (ledger_pass_total 5 3 noPrices emptyTr).2⟩

/-! ## C5 -/

/-- C5: for every window with `start ≤ end`, the pass emits exactly
`end - start + 1` rows, their timestamps strictly increase, and a second is
some row's timestamp exactly when it lies in `[start, end]` — the rows
contiguously and uniquely cover the closed window. -/
theorem ledger_covers_window :
    ∀ (a b : ℤ) (p : Int → Option ℚ) (tr : Int → List Trade), a ≤ b →
      (((buildRows a b p tr).length : ℤ) = b - a + 1) ∧
      List.Pairwise (fun r₁ r₂ => r₁.timestamp < r₂.timestamp) (buildRows a b p tr) ∧
      (∀ t : ℤ, (a ≤ t ∧ t ≤ b) ↔ ∃ r ∈ buildRows a b p tr, r.timestamp = t) := by
  intro a b p tr hab
  have hlen : (buildRows a b p tr).length = (b + 1 - a).toNat := by
    rw [buildRows, buildAux_length]
  have hmap : (buildRows a b p tr).map (fun r => r.timestamp) =
      (List.range ((b + 1 - a).toNat)).map (fun (i : ℕ) => a + (i : ℤ)) := by
    rw [buildRows]
    exact buildAux_timestamps p tr _ initState a
  refine ⟨by rw [hlen]; omega, ?_, ?_⟩
  · have h1 : List.Pairwise (· < ·) ((buildRows a b p tr).map (fun r => r.timestamp)) := by
      rw [hmap, List.pairwise_map]
      exact (List.pairwise_lt_range _).imp (fun {i j} hij => by omega)
    exact (List.pairwise_map).mp h1
  · intro t
    constructor
    · rintro ⟨h1, h2⟩
      have ht : t ∈ (buildRows a b p tr).map (fun r => r.timestamp) := by
        rw [hmap]
        refine List.mem_map.mpr ⟨(t - a).toNat, List.mem_range.mpr (by omega), by omega⟩
      obtain ⟨r, hr, hrt⟩ := List.mem_map.mp ht
      exact ⟨r, hr, hrt⟩
    · rintro ⟨r, hr, hrt⟩
      have ht : r.timestamp ∈ (buildRows a b p tr).map (fun r => r.timestamp) :=
        List.mem_map_of_mem _ hr
      rw [hmap] at ht
      obtain ⟨i, hi, hit⟩ := List.mem_map.mp ht
      have hi2 := List.mem_range.mp hi
      constructor <;> omega

/-- C5 witness: the statement on the window `[1, 3]` with empty data. -/
theorem ledger_covers_window_witness :
    (1 : ℤ) ≤ 3 ∧
    ((((buildRows 1 3 noPrices emptyTr).length : ℤ) = 3 - 1 + 1) ∧
     List.Pairwise (fun r₁ r₂ => r₁.timestamp < r₂.timestamp)
       (buildRows 1 3 noPrices emptyTr) ∧
     (∀ t : ℤ, (1 ≤ t ∧ t ≤ 3) ↔ ∃ r ∈ buildRows 1 3 noPrices emptyTr, r.timestamp = t)) :=
  ⟨by norm_num, ledger_covers_window 1 3 noPrices emptyTr (by norm_num)⟩

/-! ## C6 -/

/-- C6: for any second of the walk, each non-empty BUY partition updates the
running state by `cum_cost += fill_size * fill_avg_price` and
`cum_size += fill_size`, where `fill_size` is the partition's total size and
`fill_avg_price` (`fillAvg`) is the unweighted arithmetic mean of the
partition's trade prices — not a size-weighted mean. -/
theorem fill_update_unweighted_mean :
    ∀ (p : Int → Option ℚ) (tr : Int → List Trade) (st : BuildState) (ts : Int),
      (∀ t ∈ tr ts, 0 ≤ t.size) →
      (((tr ts).filter isBuyUp ≠ [] →
         (stepRow p tr st ts).1.cum_up_cost =
           st.cum_up_cost +
             fillSize ((tr ts).filter isBuyUp) * fillAvg ((tr ts).filter isBuyUp) ∧
         (stepRow p tr st ts).1.cum_up_size =
           st.cum_up_size + fillSize ((tr ts).filter isBuyUp)) ∧
       ((tr ts).filter isBuyDown ≠ [] →
         (stepRow p tr st ts).1.cum_down_cost =
           st.cum_down_cost +
             fillSize ((tr ts).filter isBuyDown) * fillAvg ((tr ts).filter isBuyDown) ∧
         (stepRow p tr st ts).1.cum_down_size =
           st.cum_down_size + fillSize ((tr ts).filter isBuyDown))) := by
  intro p tr st ts h
  have hup : ∀ t ∈ (tr ts).filter isBuyUp, 0 ≤ t.size :=
    fun t ht => h t (List.mem_of_mem_filter ht)
  have hdn : ∀ t ∈ (tr ts).filter isBuyDown, 0 ≤ t.size :=
    fun t ht => h t (List.mem_of_mem_filter ht)
  constructor
  · intro _
    exact ⟨(updSide_add st.cum_up_cost st.cum_up_size _ hup).1,
      (updSide_add st.cum_up_cost st.cum_up_size _ hup).2⟩
  · intro _
    exact ⟨(updSide_add st.cum_down_cost st.cum_down_size _ hdn).1,
      (updSide_add st.cum_down_cost st.cum_down_size _ hdn).2⟩

/-- C6 witness: the statement on the second holding `exTradesB`, whose Up
partition is non-empty. -/
theorem fill_update_unweighted_mean_witness :
    (∀ t ∈ exTradesB, 0 ≤ t.size) ∧
    exTradesB.filter isBuyUp ≠ [] ∧
    (stepRow noPrices (fun _ => exTradesB) initState 1).1.cum_up_cost =
      initState.cum_up_cost +
        fillSize (exTradesB.filter isBuyUp) * fillAvg (exTradesB.filter isBuyUp) ∧
    (stepRow noPrices (fun _ => exTradesB) initState 1).1.cum_up_size =
      initState.cum_up_size + fillSize (exTradesB.filter isBuyUp) := by
  have hsz : ∀ t ∈ exTradesB, 0 ≤ t.size := by
    intro t ht
    fin_cases ht <;> norm_num
  have hne : exTradesB.filter isBuyUp ≠ [] := by
    simp [exTradesB, isBuyUp, List.filter]
  have h := fill_update_unweighted_mean noPrices (fun _ => exTradesB) initState 1 hsz
  exact ⟨hsz, hne, (h.1 hne).1, (h.1 hne).2⟩

/-! ## C7 -/

/-- C7: when every trade has non-negative size, both cumulative-size columns
are non-decreasing along the emitted row sequence, and deleting all trades
that are not recognized BUY-Up or BUY-Down fills (SELLs and unknown labels)
leaves the cumulative-size columns of every row unchanged. -/
theorem cum_sizes_monotone_and_sells_ignored :
    ∀ (a b : ℤ) (p : Int → Option ℚ) (trades : List Trade),
      (∀ t ∈ trades, 0 ≤ t.size) →
      (List.Pairwise (fun r₁ r₂ => cumUpOf r₁ ≤ cumUpOf r₂ ∧ cumDownOf r₁ ≤ cumDownOf r₂)
          (buildRows a b p (tradesByTs trades)) ∧
       (buildRows a b p
           (tradesByTs (trades.filter (fun t => isBuyUp t || isBuyDown t)))).map
           (fun r => (r.cum_up_size, r.cum_down_size)) =
         (buildRows a b p (tradesByTs trades)).map
           (fun r => (r.cum_up_size, r.cum_down_size))) := by
  intro a b p trades _
  constructor
  · rw [buildRows]
    exact buildAux_cum_pairwise p (tradesByTs trades) _ initState a
  · rw [buildRows, buildRows]
    exact buildAux_cumPair_congr p _ _
      (fun s => tradesByTs_filter_restrict trades s isBuyUp _ (fun t ht => by simp [ht]))
      (fun s => tradesByTs_filter_restrict trades s isBuyDown _ (fun t ht => by simp [ht]))
      _ initState a

/-- C7 witness: the statement on the `exTradesA` stream over `[1, 1]`. -/
theorem cum_sizes_monotone_and_sells_ignored_witness :
    (∀ t ∈ exTradesA, 0 ≤ t.size) ∧
    (List.Pairwise (fun r₁ r₂ => cumUpOf r₁ ≤ cumUpOf r₂ ∧ cumDownOf r₁ ≤ cumDownOf r₂)
        (buildRows 1 1 noPrices (tradesByTs exTradesA)) ∧
     (buildRows 1 1 noPrices
         (tradesByTs (exTradesA.filter (fun t => isBuyUp t || isBuyDown t)))).map
         (fun r => (r.cum_up_size, r.cum_down_size)) =
       (buildRows 1 1 noPrices (tradesByTs exTradesA)).map
         (fun r => (r.cum_up_size, r.cum_down_size))) := by
  have hsz : ∀ t ∈ exTradesA, 0 ≤ t.size := by
    intro t ht
    fin_cases ht <;> norm_num
  exact ⟨hsz, cum_sizes_monotone_and_sells_ignored 1 1 noPrices exTradesA hsz⟩

/-! ## C8 -/

/-- A second spelling of the empty price feed, pointwise equal to
`noPrices` but not syntactically identical. -/
def noPrices2 : Int → Option ℚ := fun s => if 0 ≤ s * s then none else some 0

/-- C8: the build is a pure function of the window, the price map and the
per-second trade lists: runs on pointwise-equal inputs produce identical row
sequences (no hidden mutable state, no time-of-day dependency in the model). -/
theorem build_depends_only_on_inputs :
    ∀ (a b : ℤ) (p₁ p₂ : Int → Option ℚ) (t₁ t₂ : Int → List Trade),
      (∀ s, p₁ s = p₂ s) → (∀ s, t₁ s = t₂ s) →
      buildRows a b p₁ t₁ = buildRows a b p₂ t₂ := by
  intro a b p₁ p₂ t₁ t₂ hp ht
  rw [buildRows, buildRows]
  exact buildAux_congr p₁ p₂ t₁ t₂ hp ht _ initState a

/-- C8 witness: two different spellings of the same inputs give the same
ledger. -/
theorem build_depends_only_on_inputs_witness :
    (∀ s : ℤ, noPrices s = noPrices2 s) ∧
    buildRows 0 2 noPrices emptyTr = buildRows 0 2 noPrices2 emptyTr := by
  have hp : ∀ s : ℤ, noPrices s = noPrices2 s := by
    intro s
    simp [noPrices, noPrices2, mul_self_nonneg]
  exact ⟨hp, build_depends_only_on_inputs 0 2 noPrices noPrices2 emptyTr emptyTr hp
    (fun s => rfl)⟩

/-! ## C9 -/

/-- C9: trades whose timestamp is absent or `0` (falsy) are silently and
completely ignored: deleting them from the raw trade list leaves every
emitted row — per-second sizes and prices, cumulative position, trade
count — exactly unchanged. -/
theorem falsy_timestamp_trades_ignored :
    ∀ (a b : ℤ) (p : Int → Option ℚ) (trades : List Trade),
      buildRows a b p (tradesByTs trades) =
        buildRows a b p (tradesByTs (trades.filter (fun t => t.timestamp.getD 0 != 0))) := by
  intro a b p trades
  rw [buildRows, buildRows]
  exact buildAux_congr _ _ _ _ (fun s => rfl)
    (fun s => (tradesByTs_drop_falsy trades s).symm) _ initState a

/-! ## C10 -/

lemma anchorAfter_falsy (base close : Option ℚ) (h : close = none ∨ close = some 0) :
    anchorAfter base close = base := by
  rcases h with h | h <;> subst h <;> simp [anchorAfter]

lemma deltaField_falsy_close (base close : Option ℚ) (h : close = none ∨ close = some 0) :
    deltaField base close = none := by
  rcases h with h | h <;> subst h
  · cases base <;> rfl
  · cases base <;> simp [deltaField]

lemma deltaField_zero_base (close : Option ℚ) : deltaField (some 0) close = none := by
  cases close <;> simp [deltaField]

/-- C10: a falsy close (no tick, or a tick whose close is `0.0`) neither
sets the anchor price nor produces a delta for that row; and were the
carried anchor itself `0`, the delta would stay blank for every close. -/
theorem falsy_close_keeps_anchor_blank_delta :
    ∀ (p : Int → Option ℚ) (tr : Int → List Trade) (st : BuildState) (ts : Int),
      ((p ts = none ∨ p ts = some 0) →
        (stepRow p tr st ts).1.base_price = st.base_price ∧
        (stepRow p tr st ts).2.btc_delta = none) ∧
      (st.base_price = some 0 → (stepRow p tr st ts).2.btc_delta = none) := by
  intro p tr st ts
  constructor
  · intro h
    constructor
    · show anchorAfter st.base_price (p ts) = st.base_price
      exact anchorAfter_falsy _ _ h
    · show deltaField (anchorAfter st.base_price (p ts)) (p ts) = none
      rw [anchorAfter_falsy _ _ h]
      exact deltaField_falsy_close _ _ h
  · intro h
    show deltaField (anchorAfter st.base_price (p ts)) (p ts) = none
    have h2 : anchorAfter st.base_price (p ts) = some 0 := by
      rw [h]
      simp [anchorAfter]
    rw [h2]
    exact deltaField_zero_base _

/-- A price feed whose every close is the falsy `0.0`. -/
def zeroClose : Int → Option ℚ := fun _ => some 0

/-- A carried state whose anchor is the (unreachable in practice) zero
price. -/
def st0 : BuildState := ⟨some 0, 0, 0, 0, 0⟩

/-- C10 witness: both implications discharged on a second whose close is
`0.0` and a state whose anchor is `0`. -/
theorem falsy_close_keeps_anchor_blank_delta_witness :
    (zeroClose 7 = none ∨ zeroClose 7 = some 0) ∧
    (stepRow zeroClose emptyTr st0 7).1.base_price = st0.base_price ∧
    (stepRow zeroClose emptyTr st0 7).2.btc_delta = none ∧
    st0.base_price = some 0 := by
  have h := falsy_close_keeps_anchor_blank_delta zeroClose emptyTr st0 7
  exact ⟨Or.inr rfl, (h.1 (Or.inr rfl)).1, h.2 rfl, rfl⟩
